import Mathlib

/-!
Verification of the core simulation logic of the DC food-desert map
(`src/app/components/ui/SimulationLayer.tsx` and its variants in
`src/unnamed/part_002` / `src/unnamed/part_005`).

The repository animates "resident" markers walking between home points and
their nearest grocery store.  The algorithmic pieces embedded here are:

* `findNearestStore` : linear scan for the closest store (strict `<` update,
  so the first store at minimum distance wins);
* `getRoute` (second variant of `SimulationLayer.tsx`, lines 383-431):
  route cache with forward and reverse keys;
* `getRouteRetry` (first variant of `SimulationLayer.tsx`, lines 74-137):
  retry-once-then-fall-back directions wrapper;
* `getRouteRL` (`src/unnamed/part_002`, lines 35-75): rate-limit pacing and
  HTTP 429 handling;
* `tickPerson` (the `startAnimation` body, lines 458-488): per-frame progress
  advance with wraparound;
* `reroutePerson` (the per-person core of `reloadAndReroute`, lines 650-683).

Geographic coordinates are modelled as pairs of rationals; the external
geodesic distance (`turf.distance`) enters the code only through comparisons,
so it is carried as an explicit function parameter `d`.  Network responses
are inputs to the embedded functions (the code is driven by the response it
happens to receive), and JavaScript `Map` route caches are association lists
with first-match lookup, where `Map.set` is modelled by prepending.
-/

/-- A (longitude, latitude) pair, as handled by the simulation. -/
abbrev Point : Type := ℚ × ℚ

/-- A route-cache key: the (start, end) pair.  The source builds a string
key from the coordinates; for rational coordinate pairs that keying is
injective, so the pair itself is used here. -/
abbrev RouteKey : Type := Point × Point

/-- The route cache (`routeCacheRef.current`), a JavaScript `Map` from keys
to polylines.  `Map.set` is modelled by prepending and `Map.get` by
first-match lookup, which gives the same lookup semantics. -/
abbrev Cache : Type := List (RouteKey × List Point)

/-- First-match lookup, modelling `routeCacheRef.current.get`/`has`. -/
def cacheFind : Cache → RouteKey → Option (List Point)
  | [], _ => none
  | (k, v) :: rest, key => if key = k then some v else cacheFind rest key

/-- Overwriting insertion, modelling `routeCacheRef.current.set`. -/
def cacheSet (c : Cache) (k : RouteKey) (v : List Point) : Cache :=
  (k, v) :: c

@[simp] theorem cacheFind_nil (key : RouteKey) : cacheFind [] key = none := rfl

@[simp] theorem cacheFind_cons (k : RouteKey) (v : List Point) (c : Cache)
    (key : RouteKey) :
    cacheFind ((k, v) :: c) key = if key = k then some v else cacheFind c key :=
  rfl

/-- Squared planar distance; a concrete executable distance function used to
instantiate witnesses.  The simulation compares distances but never uses
their magnitudes, so any distance function is admissible. -/
def sqDist (a b : Point) : ℚ :=
  (a.1 - b.1) * (a.1 - b.1) + (a.2 - b.2) * (a.2 - b.2)

/-- Accumulator loop of `findNearestStore` (`stores.features.forEach` in
`SimulationLayer.tsx`, lines 441-451, and `src/unnamed/part_005`, lines
93-103): `none` models the initial state `minDistance = Infinity` (the first
store always beats `Infinity`, since `turf.distance` is finite), and
`some (b, bd)` the current best store and its distance.  The update uses
strict `<`, so a tie keeps the earlier store. -/
def nearestAux (d : Point → Point → ℚ) (p : Point) :
    List Point → Option (Point × ℚ) → Option (Point × ℚ)
  | [], acc => acc
  | s :: rest, none => nearestAux d p rest (some (s, d p s))
  | s :: rest, some (b, bd) =>
      nearestAux d p rest (some (if d p s < bd then (s, d p s) else (b, bd)))

/-- `findNearestStore` (`SimulationLayer.tsx`, lines 433-456, and
`src/unnamed/part_005`, lines 84-110): returns the closest store coordinate,
or the query point itself when the store collection is empty.  Store
features are modelled by their `geometry.coordinates`. -/
def findNearestStore (d : Point → Point → ℚ) (p : Point)
    (stores : List Point) : Point :=
  match nearestAux d p stores none with
  | none => p
  | some q => q.1

/-- Running-minimum invariant of `nearestAux` started from a genuine store
`b`: the result is a store `c` whose distance is a lower bound for `b` and
for everything scanned, and either the accumulator survived or `c` occurs in
the scanned list strictly beating `b` and every store before it. -/
theorem nearestAux_spec (d : Point → Point → ℚ) (p : Point)
    (rest : List Point) :
    ∀ b : Point, ∃ c : Point,
      nearestAux d p rest (some (b, d p b)) = some (c, d p c) ∧
      d p c ≤ d p b ∧ (∀ s ∈ rest, d p c ≤ d p s) ∧
      (c = b ∨ ∃ pre post, rest = pre ++ c :: post ∧ d p c < d p b ∧
        ∀ s ∈ pre, d p c < d p s) := by
  induction rest with
  | nil =>
      intro b
      exact ⟨b, rfl, le_refl _, by simp, Or.inl rfl⟩
  | cons s rest ih =>
      intro b
      by_cases hs : d p s < d p b
      · obtain ⟨c, hc, hcb, hall, hfirst⟩ := ih s
        refine ⟨c, ?_, hcb.trans hs.le, ?_, Or.inr ?_⟩
        · simpa [nearestAux, hs] using hc
        · intro x hx
          rcases List.mem_cons.mp hx with rfl | hx
          · exact hcb
          · exact hall x hx
        · rcases hfirst with rfl | ⟨pre, post, heq, hlt, hpre⟩
          · exact ⟨[], rest, rfl, hs, by simp⟩
          · refine ⟨s :: pre, post, by rw [heq, List.cons_append], hlt.trans hs, ?_⟩
            intro x hx
            rcases List.mem_cons.mp hx with rfl | hx
            · exact hlt
            · exact hpre x hx
      · obtain ⟨c, hc, hcb, hall, hfirst⟩ := ih b
        have hbs : d p b ≤ d p s := not_lt.mp hs
        refine ⟨c, ?_, hcb, ?_, ?_⟩
        · simpa [nearestAux, hs] using hc
        · intro x hx
          rcases List.mem_cons.mp hx with rfl | hx
          · exact hcb.trans hbs
          · exact hall x hx
        · rcases hfirst with rfl | ⟨pre, post, heq, hlt, hpre⟩
          · exact Or.inl rfl
          · refine Or.inr ⟨s :: pre, post, by rw [heq, List.cons_append], hlt, ?_⟩
            intro x hx
            rcases List.mem_cons.mp hx with rfl | hx
            · exact hlt.trans_le hbs
            · exact hpre x hx

/-- Claim C1: for every query point `p` and non-empty store collection,
`findNearestStore` returns a store whose distance to `p` is ≤ the distance
from `p` to every other store, and among stores at the minimum distance it
returns the first one in iteration order (every store before it in the list
is strictly farther). -/
theorem findNearestStore_min_first (d : Point → Point → ℚ) (p : Point)
    (stores : List Point) (h : stores ≠ []) :
    ∃ pre post,
      stores = pre ++ findNearestStore d p stores :: post ∧
      (∀ s ∈ stores, d p (findNearestStore d p stores) ≤ d p s) ∧
      ∀ s ∈ pre, d p (findNearestStore d p stores) < d p s := by
  match stores, h with
  | s0 :: rest, _ =>
    obtain ⟨c, hc, hcb, hall, hfirst⟩ := nearestAux_spec d p rest s0
    have hfind : findNearestStore d p (s0 :: rest) = c := by
      simp [findNearestStore, nearestAux, hc]
    rw [hfind]
    rcases hfirst with rfl | ⟨pre, post, heq, hlt, hpre⟩
    · refine ⟨[], rest, rfl, ?_, by simp⟩
      intro x hx
      rcases List.mem_cons.mp hx with rfl | hx
      · exact le_refl _
      · exact hall x hx
    · refine ⟨s0 :: pre, post, by rw [heq, List.cons_append], ?_, ?_⟩
      · intro x hx
        rcases List.mem_cons.mp hx with rfl | hx
        · exact hcb
        · exact hall x hx
      · intro x hx
        rcases List.mem_cons.mp hx with rfl | hx
        · exact hlt
        · exact hpre x hx

/-- Witness for C1 at a concrete input: with stores `[(3,0),(1,0),(2,0)]`
and query `(0,0)` the scan returns `(1,0)`. -/
theorem findNearestStore_min_first_witness :
    ([((3 : ℚ), (0 : ℚ)), (1, 0), (2, 0)] : List Point) ≠ [] ∧
    ∃ pre post,
      ([((3 : ℚ), (0 : ℚ)), (1, 0), (2, 0)] : List Point) =
        pre ++ findNearestStore sqDist (0, 0) [(3, 0), (1, 0), (2, 0)] :: post ∧
      (∀ s ∈ ([((3 : ℚ), (0 : ℚ)), (1, 0), (2, 0)] : List Point),
        sqDist (0, 0) (findNearestStore sqDist (0, 0) [(3, 0), (1, 0), (2, 0)]) ≤
          sqDist (0, 0) s) ∧
      ∀ s ∈ pre,
        sqDist (0, 0) (findNearestStore sqDist (0, 0) [(3, 0), (1, 0), (2, 0)]) <
          sqDist (0, 0) s :=
  ⟨by decide,
    findNearestStore_min_first sqDist (0, 0) [(3, 0), (1, 0), (2, 0)] (by decide)⟩

/-- Claim C7: `findNearestStore` with an empty store collection returns the
query point itself as the degenerate no-store sentinel. -/
theorem findNearestStore_empty_sentinel (d : Point → Point → ℚ) (p : Point) :
    findNearestStore d p [] = p := rfl

/-- Outcome of one `fetch` of the directions API as seen by the second
variant of `getRoute` (`SimulationLayer.tsx`, lines 402-428).  `ok coords`
is a 2xx response whose body parsed; `coords` is
`json.routes?.[0]?.geometry?.coordinates || []` (so a response without
routes is `ok []`).  `httpError` is a non-2xx status (the code throws
`HTTP ${status}` and lands in the catch), and `netError` a rejected
`fetch`/`json()`. -/
inductive FetchOutcome where
  | ok (coords : List Point)
  | httpError
  | netError
deriving DecidableEq

/-- The second variant of `getRoute` (`SimulationLayer.tsx`, lines 383-431).
Checks the cache under the forward key, then the reverse key (returning the
reversed polyline), and only then issues a request; on a parsed response it
caches the polyline under the forward key and its reverse under the reverse
key when the polyline has more than one point, and returns it; on any error
it returns `[]`.  The returned `Bool` records whether an outbound network
request was issued (the 300 ms pacing delay applies only on that path). -/
def getRoute (c : Cache) (start finish : Point) (resp : FetchOutcome) :
    List Point × Cache × Bool :=
  match cacheFind c (start, finish) with
  | some r => (r, c, false)
  | none =>
    match cacheFind c (finish, start) with
    | some r => (r.reverse, c, false)
    | none =>
      match resp with
      | FetchOutcome.ok coords =>
          if 1 < coords.length then
            (coords,
              cacheSet (cacheSet c (start, finish) coords) (finish, start)
                coords.reverse,
              true)
          else (coords, c, true)
      | FetchOutcome.httpError => ([], c, true)
      | FetchOutcome.netError => ([], c, true)

/-- Counterexample to claim C2 as stated: the claim quantifies over every
pair of points, but for `A = B` the forward and reverse cache keys coincide,
so the reverse write overwrites the forward one.  After a successful
`getRoute(A, A)` call returning the 4-point loop `r0`, the subsequent lookup
of key `(A, A)` yields the reversed polyline, not the original one. -/
theorem getRoute_same_pair_cex :
    ((getRoute [] ((0 : ℚ), (0 : ℚ)) ((0 : ℚ), (0 : ℚ))
        (FetchOutcome.ok [(0, 0), (1, 0), (2, 0), (0, 0)])).1 =
        [((0 : ℚ), (0 : ℚ)), (1, 0), (2, 0), (0, 0)] ∧
      2 ≤ ([((0 : ℚ), (0 : ℚ)), (1, 0), (2, 0), (0, 0)] : List Point).length) ∧
    (getRoute
        ((getRoute [] ((0 : ℚ), (0 : ℚ)) ((0 : ℚ), (0 : ℚ))
          (FetchOutcome.ok [(0, 0), (1, 0), (2, 0), (0, 0)])).2.1)
        ((0 : ℚ), (0 : ℚ)) ((0 : ℚ), (0 : ℚ)) FetchOutcome.httpError).1 ≠
      [((0 : ℚ), (0 : ℚ)), (1, 0), (2, 0), (0, 0)] := by
  decide

/-- Claim C2 (amended: the two endpoints must be distinct, otherwise the
forward and reverse keys collide and the reverse write wins): after a
`getRoute(A, B)` call that misses the cache and succeeds with a polyline of
at least 2 points, a later `getRoute(A, B)` returns that same polyline from
the cache without issuing a request, and a later `getRoute(B, A)` returns
exactly the reversed polyline, also without a request. -/
theorem getRoute_cache_roundtrip (c : Cache) (A B : Point) (r : List Point)
    (resp resp2 : FetchOutcome) (hAB : A ≠ B)
    (hm1 : cacheFind c (A, B) = none) (hm2 : cacheFind c (B, A) = none)
    (hr : 2 ≤ r.length) :
    (getRoute c A B (FetchOutcome.ok r)).1 = r ∧
    getRoute ((getRoute c A B (FetchOutcome.ok r)).2.1) A B resp =
      (r, (getRoute c A B (FetchOutcome.ok r)).2.1, false) ∧
    getRoute ((getRoute c A B (FetchOutcome.ok r)).2.1) B A resp2 =
      (r.reverse, (getRoute c A B (FetchOutcome.ok r)).2.1, false) := by
  have h1 : 1 < r.length := hr
  have hne : ((A, B) : RouteKey) ≠ (B, A) := by
    intro h
    exact hAB (congrArg Prod.fst h)
  have hfirst :
      getRoute c A B (FetchOutcome.ok r) =
        (r, cacheSet (cacheSet c (A, B) r) (B, A) r.reverse, true) := by
    simp [getRoute, hm1, hm2, h1]
  rw [hfirst]
  refine ⟨rfl, ?_, ?_⟩
  · simp [getRoute, cacheSet, hne]
  · simp [getRoute, cacheSet]

/-- Witness for C2 (amended) at a concrete input. -/
theorem getRoute_cache_roundtrip_witness :
    (((0 : ℚ), (0 : ℚ)) ≠ ((1 : ℚ), (1 : ℚ)) ∧
      cacheFind [] (((0 : ℚ), (0 : ℚ)), ((1 : ℚ), (1 : ℚ))) = none ∧
      cacheFind [] (((1 : ℚ), (1 : ℚ)), ((0 : ℚ), (0 : ℚ))) = none ∧
      2 ≤ ([((0 : ℚ), (0 : ℚ)), (5, 5), (1, 1)] : List Point).length) ∧
    ((getRoute [] ((0 : ℚ), (0 : ℚ)) ((1 : ℚ), (1 : ℚ))
        (FetchOutcome.ok [(0, 0), (5, 5), (1, 1)])).1 =
        [((0 : ℚ), (0 : ℚ)), (5, 5), (1, 1)] ∧
      getRoute
          ((getRoute [] ((0 : ℚ), (0 : ℚ)) ((1 : ℚ), (1 : ℚ))
            (FetchOutcome.ok [(0, 0), (5, 5), (1, 1)])).2.1)
          ((0 : ℚ), (0 : ℚ)) ((1 : ℚ), (1 : ℚ)) FetchOutcome.netError =
        ([((0 : ℚ), (0 : ℚ)), (5, 5), (1, 1)],
          (getRoute [] ((0 : ℚ), (0 : ℚ)) ((1 : ℚ), (1 : ℚ))
            (FetchOutcome.ok [(0, 0), (5, 5), (1, 1)])).2.1, false) ∧
      getRoute
          ((getRoute [] ((0 : ℚ), (0 : ℚ)) ((1 : ℚ), (1 : ℚ))
            (FetchOutcome.ok [(0, 0), (5, 5), (1, 1)])).2.1)
          ((1 : ℚ), (1 : ℚ)) ((0 : ℚ), (0 : ℚ)) FetchOutcome.netError =
        (([((0 : ℚ), (0 : ℚ)), (5, 5), (1, 1)] : List Point).reverse,
          (getRoute [] ((0 : ℚ), (0 : ℚ)) ((1 : ℚ), (1 : ℚ))
            (FetchOutcome.ok [(0, 0), (5, 5), (1, 1)])).2.1, false)) :=
  ⟨⟨by decide, rfl, rfl, by decide⟩,
    getRoute_cache_roundtrip [] ((0 : ℚ), (0 : ℚ)) ((1 : ℚ), (1 : ℚ))
      [(0, 0), (5, 5), (1, 1)] FetchOutcome.netError FetchOutcome.netError
      (by decide) rfl rfl (by decide)⟩

/-- Well-formedness of the route cache: every polyline a lookup can return
has at least 2 points. -/
def cacheWF (c : Cache) : Prop :=
  ∀ k r, cacheFind c k = some r → 2 ≤ r.length

/-- Inserting a polyline of length ≥ 2 preserves cache well-formedness. -/
theorem cacheWF_set (c : Cache) (k : RouteKey) (v : List Point)
    (h : cacheWF c) (hv : 2 ≤ v.length) : cacheWF (cacheSet c k v) := by
  intro k2 r hk
  rw [cacheSet, cacheFind_cons] at hk
  by_cases he : k2 = k
  · rw [if_pos he] at hk
    cases hk
    exact hv
  · rw [if_neg he] at hk
    exact h k2 r hk

/-- Claim C9: `getRoute` writes a fetched polyline (and its reverse) into
the cache only when its length exceeds 1, so if every polyline stored in the
cache has at least 2 points before a `getRoute` call, the same holds after
it — any cache hit, forward or reverse, yields a route valid for
animation. -/
theorem getRoute_cache_invariant (c : Cache) (s f : Point)
    (resp : FetchOutcome) (h : cacheWF c) :
    cacheWF (getRoute c s f resp).2.1 := by
  cases h1 : cacheFind c (s, f) with
  | some r => simpa [getRoute, h1] using h
  | none =>
    cases h2 : cacheFind c (f, s) with
    | some r => simpa [getRoute, h1, h2] using h
    | none =>
      cases resp with
      | ok coords =>
          by_cases hlen : 1 < coords.length
          · have hred : getRoute c s f (FetchOutcome.ok coords) =
                (coords,
                  cacheSet (cacheSet c (s, f) coords) (f, s) coords.reverse,
                  true) := by
              simp [getRoute, h1, h2, hlen]
            rw [hred]
            have h2le : 2 ≤ coords.length := hlen
            exact cacheWF_set _ _ _ (cacheWF_set _ _ _ h h2le)
              (by simpa using h2le)
          · have hred : getRoute c s f (FetchOutcome.ok coords) =
                (coords, c, true) := by
              simp [getRoute, h1, h2, hlen]
            rw [hred]
            exact h
      | httpError => simpa [getRoute, h1, h2] using h
      | netError => simpa [getRoute, h1, h2] using h

/-- Witness for C9 at a concrete input: starting from the empty cache. -/
theorem getRoute_cache_invariant_witness :
    cacheWF [] ∧
    cacheWF ((getRoute [] ((0 : ℚ), (0 : ℚ)) ((1 : ℚ), (1 : ℚ))
      (FetchOutcome.ok [(0, 0), (1, 1)])).2.1) :=
  ⟨fun k r hk => by simp [cacheFind] at hk,
    getRoute_cache_invariant [] ((0 : ℚ), (0 : ℚ)) ((1 : ℚ), (1 : ℚ))
      (FetchOutcome.ok [(0, 0), (1, 1)])
      (fun k r hk => by simp [cacheFind] at hk)⟩

/-- Outcome of one directions request as seen by the first variant of
`getRoute` (`SimulationLayer.tsx`, lines 84-131).  `ok coords` means the
response parsed and `json.routes` was non-empty, with
`json.routes[0].geometry.coordinates = coords`; `noRoutes` means the parsed
body had no routes (the code throws `No route found`, or on the retry simply
skips the result); `err` means `fetch`/`json()` rejected. -/
inductive AttemptOutcome where
  | ok (coords : List Point)
  | noRoutes
  | err
deriving DecidableEq

/-- Catch block of the first-variant `getRoute` (`SimulationLayer.tsx`,
lines 108-135), entered after a failed first attempt on a cache miss: since
the key is still uncached (`!routeCacheRef.current.has(cacheKey)` holds — the
cache was not written before the throw), the code sleeps the fixed 1000 ms
backoff and retries exactly once; a retry with routes and a polyline of
length ≥ 2 is cached and returned, anything else falls through to
`routeCacheRef.current.get(cacheKey) || [start, end]`.  The `ℕ` counts the
outbound requests issued by the whole call. -/
def getRouteRecover (c : Cache) (start finish : Point)
    (a2 : AttemptOutcome) : List Point × Cache × ℕ :=
  match a2 with
  | AttemptOutcome.ok coords =>
      if 2 ≤ coords.length then
        (coords, cacheSet c (start, finish) coords, 2)
      else ((cacheFind c (start, finish)).getD [start, finish], c, 2)
  | AttemptOutcome.noRoutes =>
      ((cacheFind c (start, finish)).getD [start, finish], c, 2)
  | AttemptOutcome.err =>
      ((cacheFind c (start, finish)).getD [start, finish], c, 2)

/-- The first variant of `getRoute` (`SimulationLayer.tsx`, lines 74-137):
cache hit returns immediately; otherwise the first attempt succeeds only
with a polyline of length ≥ 2 (shorter ones throw `Route too short`), and
every failure lands in `getRouteRecover`.  All exceptions are caught inside
the function, so the caller always receives a polyline — never a thrown
error.  `a1`/`a2` are the outcomes of the first attempt and of the retry. -/
def getRouteRetry (c : Cache) (start finish : Point)
    (a1 a2 : AttemptOutcome) : List Point × Cache × ℕ :=
  match cacheFind c (start, finish) with
  | some r => (r, c, 0)
  | none =>
    match a1 with
    | AttemptOutcome.ok coords =>
        if 2 ≤ coords.length then
          (coords, cacheSet c (start, finish) coords, 1)
        else getRouteRecover c start finish a2
    | AttemptOutcome.noRoutes => getRouteRecover c start finish a2
    | AttemptOutcome.err => getRouteRecover c start finish a2

/-- Claim C3: the first-variant `getRoute` never propagates an error (it is
a total function of the attempt outcomes); whenever the cache misses and the
first attempt fails, it retries exactly once (2 requests, never more); and
when the retry also fails it falls back to the cached route for the key if
one exists, otherwise the direct two-point route `[start, finish]` — so
under the cache invariant every result has at least 2 points and is valid
for animation. -/
theorem getRouteRetry_failsafe (c : Cache) (s f : Point)
    (a1 a2 : AttemptOutcome) (hWF : cacheWF c) :
    2 ≤ (getRouteRetry c s f a1 a2).1.length ∧
    (getRouteRetry c s f a1 a2).2.2 ≤ 2 ∧
    (cacheFind c (s, f) = none →
      (∀ r, a1 = AttemptOutcome.ok r → r.length < 2) →
      (getRouteRetry c s f a1 a2).2.2 = 2) ∧
    (cacheFind c (s, f) = none →
      (∀ r, a1 = AttemptOutcome.ok r → r.length < 2) →
      (∀ r, a2 = AttemptOutcome.ok r → r.length < 2) →
      (getRouteRetry c s f a1 a2).1 = [s, f]) := by
  cases hc : cacheFind c (s, f) with
  | some r =>
      refine ⟨?_, ?_, ?_, ?_⟩ <;> simp [getRouteRetry, hc]
      · exact hWF _ _ hc
  | none =>
      have hrecover : ∀ b : AttemptOutcome,
          (∀ r, b = AttemptOutcome.ok r → r.length < 2) →
          getRouteRecover c s f b = ([s, f], c, 2) := by
        intro b hb
        cases b with
        | ok coords =>
            have : coords.length < 2 := hb coords rfl
            simp [getRouteRecover, hc, Nat.not_le.mpr this]
        | noRoutes => simp [getRouteRecover, hc]
        | err => simp [getRouteRecover, hc]
      cases a1 with
      | ok coords =>
          by_cases hlen : 2 ≤ coords.length
          · have hred : getRouteRetry c s f (AttemptOutcome.ok coords) a2 =
                (coords, cacheSet c (s, f) coords, 1) := by
              simp [getRouteRetry, hc, hlen]
            refine ⟨by rw [hred]; exact hlen, by rw [hred]; exact one_le_two, ?_, ?_⟩
            · intro _ hfail
              exact absurd (hfail coords rfl) (Nat.not_lt.mpr hlen)
            · intro _ hfail _
              exact absurd (hfail coords rfl) (Nat.not_lt.mpr hlen)
          · have hred : getRouteRetry c s f (AttemptOutcome.ok coords) a2 =
                getRouteRecover c s f a2 := by
              simp [getRouteRetry, hc, hlen]
            rw [hred]
            cases ha2 : a2 with
            | ok coords2 =>
                by_cases hlen2 : 2 ≤ coords2.length
                · have hred2 : getRouteRecover c s f (AttemptOutcome.ok coords2) =
                      (coords2, cacheSet c (s, f) coords2, 2) := by
                    simp [getRouteRecover, hlen2]
                  refine ⟨by rw [hred2]; exact hlen2, by rw [hred2], by rw [hred2]; intros; rfl, ?_⟩
                  intro _ _ hfail2
                  exact absurd (hfail2 coords2 rfl) (Nat.not_lt.mpr hlen2)
                · have hred2 : getRouteRecover c s f (AttemptOutcome.ok coords2) =
                      ([s, f], c, 2) :=
                    hrecover _ (by intro r hr; cases hr; exact Nat.not_le.mp hlen2)
                  rw [hred2]
                  exact ⟨by simp, by simp, fun _ _ => rfl, fun _ _ _ => rfl⟩
            | noRoutes =>
                rw [hrecover _ (by intro r hr; cases hr)]
                exact ⟨by simp, by simp, fun _ _ => rfl, fun _ _ _ => rfl⟩
            | err =>
                rw [hrecover _ (by intro r hr; cases hr)]
                exact ⟨by simp, by simp, fun _ _ => rfl, fun _ _ _ => rfl⟩
      | noRoutes =>
          have hred : getRouteRetry c s f AttemptOutcome.noRoutes a2 =
              getRouteRecover c s f a2 := by
            simp [getRouteRetry, hc]
          rw [hred]
          cases ha2 : a2 with
          | ok coords2 =>
              by_cases hlen2 : 2 ≤ coords2.length
              · have hred2 : getRouteRecover c s f (AttemptOutcome.ok coords2) =
                    (coords2, cacheSet c (s, f) coords2, 2) := by
                  simp [getRouteRecover, hlen2]
                refine ⟨by rw [hred2]; exact hlen2, by rw [hred2], by rw [hred2]; intros; rfl, ?_⟩
                intro _ _ hfail2
                exact absurd (hfail2 coords2 rfl) (Nat.not_lt.mpr hlen2)
              · rw [hrecover _ (by intro r hr; cases hr; exact Nat.not_le.mp hlen2)]
                exact ⟨by simp, by simp, fun _ _ => rfl, fun _ _ _ => rfl⟩
          | noRoutes =>
              rw [hrecover _ (by intro r hr; cases hr)]
              exact ⟨by simp, by simp, fun _ _ => rfl, fun _ _ _ => rfl⟩
          | err =>
              rw [hrecover _ (by intro r hr; cases hr)]
              exact ⟨by simp, by simp, fun _ _ => rfl, fun _ _ _ => rfl⟩
      | err =>
          have hred : getRouteRetry c s f AttemptOutcome.err a2 =
              getRouteRecover c s f a2 := by
            simp [getRouteRetry, hc]
          rw [hred]
          cases ha2 : a2 with
          | ok coords2 =>
              by_cases hlen2 : 2 ≤ coords2.length
              · have hred2 : getRouteRecover c s f (AttemptOutcome.ok coords2) =
                    (coords2, cacheSet c (s, f) coords2, 2) := by
                  simp [getRouteRecover, hlen2]
                refine ⟨by rw [hred2]; exact hlen2, by rw [hred2], by rw [hred2]; intros; rfl, ?_⟩
                intro _ _ hfail2
                exact absurd (hfail2 coords2 rfl) (Nat.not_lt.mpr hlen2)
              · rw [hrecover _ (by intro r hr; cases hr; exact Nat.not_le.mp hlen2)]
                exact ⟨by simp, by simp, fun _ _ => rfl, fun _ _ _ => rfl⟩
          | noRoutes =>
              rw [hrecover _ (by intro r hr; cases hr)]
              exact ⟨by simp, by simp, fun _ _ => rfl, fun _ _ _ => rfl⟩
          | err =>
              rw [hrecover _ (by intro r hr; cases hr)]
              exact ⟨by simp, by simp, fun _ _ => rfl, fun _ _ _ => rfl⟩

/-- Witness for C3 at a concrete input: empty cache, both attempts fail. -/
theorem getRouteRetry_failsafe_witness :
    cacheWF [] ∧
    (2 ≤ (getRouteRetry [] ((0 : ℚ), (0 : ℚ)) ((1 : ℚ), (1 : ℚ))
        AttemptOutcome.err AttemptOutcome.err).1.length ∧
      (getRouteRetry [] ((0 : ℚ), (0 : ℚ)) ((1 : ℚ), (1 : ℚ))
        AttemptOutcome.err AttemptOutcome.err).2.2 ≤ 2 ∧
      (cacheFind [] (((0 : ℚ), (0 : ℚ)), ((1 : ℚ), (1 : ℚ))) = none →
        (∀ r, AttemptOutcome.err = AttemptOutcome.ok r → r.length < 2) →
        (getRouteRetry [] ((0 : ℚ), (0 : ℚ)) ((1 : ℚ), (1 : ℚ))
          AttemptOutcome.err AttemptOutcome.err).2.2 = 2) ∧
      (cacheFind [] (((0 : ℚ), (0 : ℚ)), ((1 : ℚ), (1 : ℚ))) = none →
        (∀ r, AttemptOutcome.err = AttemptOutcome.ok r → r.length < 2) →
        (∀ r, AttemptOutcome.err = AttemptOutcome.ok r → r.length < 2) →
        (getRouteRetry [] ((0 : ℚ), (0 : ℚ)) ((1 : ℚ), (1 : ℚ))
          AttemptOutcome.err AttemptOutcome.err).1 = [(0, 0), (1, 1)])) :=
  ⟨fun k r hk => by simp [cacheFind] at hk,
    getRouteRetry_failsafe [] ((0 : ℚ), (0 : ℚ)) ((1 : ℚ), (1 : ℚ))
      AttemptOutcome.err AttemptOutcome.err
      (fun k r hk => by simp [cacheFind] at hk)⟩

/-- Mutable state threaded through the `getRoute` of `src/unnamed/part_002`:
the route cache and `lastRequestTimeRef.current` (milliseconds, as from
`Date.now()`). -/
structure RLState where
  cache : Cache
  lastRequest : ℤ
deriving DecidableEq

/-- Outcome of one directions request as seen by the `getRoute` of
`src/unnamed/part_002` (lines 53-74).  `ok coords` is a non-429 response
that parsed; `coords` is `json.routes?.[0]?.geometry?.coordinates`, with
`none` when the chain is undefined (the code then substitutes
`[start, end]`).  `rateLimited` is an HTTP 429 status, and `err` a rejected
`fetch`/`json()`. -/
inductive RLOutcome where
  | ok (coords : Option (List Point))
  | rateLimited
  | err
deriving DecidableEq

/-- The `getRoute` of `src/unnamed/part_002` (lines 35-75): forward/reverse
cache check, then a pacing sleep of `max (300 - (now - lastRequest)) 0`
milliseconds before the request.  The sleep is idealized as exact, so the
request is issued at `now + delay` and `lastRequestTimeRef.current` is set
to that instant just before the `fetch`.  A 429 response returns the direct
route `[start, finish]` without caching; a parsed response is cached under
both keys and returned; an error returns the direct route without caching.
The result carries the route, the next state, and `some issueTime` when an
outbound request was issued (`none` on a cache hit). -/
def getRouteRL (st : RLState) (start finish : Point) (now : ℤ)
    (resp : RLOutcome) : List Point × RLState × Option ℤ :=
  match cacheFind st.cache (start, finish) with
  | some r => (r, st, none)
  | none =>
    match cacheFind st.cache (finish, start) with
    | some r => (r.reverse, st, none)
    | none =>
      let issueTime : ℤ := now + max (300 - (now - st.lastRequest)) 0
      match resp with
      | RLOutcome.rateLimited =>
          ([start, finish], { st with lastRequest := issueTime }, some issueTime)
      | RLOutcome.ok coords =>
          let route := coords.getD [start, finish]
          (route,
            { cache := cacheSet (cacheSet st.cache (start, finish) route)
                (finish, start) route.reverse,
              lastRequest := issueTime },
            some issueTime)
      | RLOutcome.err =>
          ([start, finish], { st with lastRequest := issueTime }, some issueTime)

/-- Claim C8: two consecutive `getRouteRL` calls for an uncached pair that
both receive HTTP 429 both resolve to the direct two-point route
`[start, finish]`, neither writes the cache, and the two outbound requests
are spaced at least the configured 300 ms apart, so the pacing invariant
(at most one request per 300 ms window) is respected. -/
theorem getRouteRL_rate_limited_twice (st : RLState) (s f : Point)
    (n1 n2 : ℤ) (hm1 : cacheFind st.cache (s, f) = none)
    (hm2 : cacheFind st.cache (f, s) = none) :
    (getRouteRL st s f n1 RLOutcome.rateLimited).1 = [s, f] ∧
    (getRouteRL (getRouteRL st s f n1 RLOutcome.rateLimited).2.1 s f n2
      RLOutcome.rateLimited).1 = [s, f] ∧
    (getRouteRL st s f n1 RLOutcome.rateLimited).2.1.cache = st.cache ∧
    ∃ t1 t2 : ℤ,
      (getRouteRL st s f n1 RLOutcome.rateLimited).2.2 = some t1 ∧
      (getRouteRL (getRouteRL st s f n1 RLOutcome.rateLimited).2.1 s f n2
        RLOutcome.rateLimited).2.2 = some t2 ∧
      t1 + 300 ≤ t2 := by
  have h1 : getRouteRL st s f n1 RLOutcome.rateLimited =
      ([s, f],
        { st with lastRequest := n1 + max (300 - (n1 - st.lastRequest)) 0 },
        some (n1 + max (300 - (n1 - st.lastRequest)) 0)) := by
    simp [getRouteRL, hm1, hm2]
  rw [h1]
  have h2 : getRouteRL
      { st with lastRequest := n1 + max (300 - (n1 - st.lastRequest)) 0 }
      s f n2 RLOutcome.rateLimited =
      ([s, f],
        { st with lastRequest := n2 + max (300 -
            (n2 - (n1 + max (300 - (n1 - st.lastRequest)) 0))) 0 },
        some (n2 + max (300 -
            (n2 - (n1 + max (300 - (n1 - st.lastRequest)) 0))) 0)) := by
    simp [getRouteRL, hm1, hm2]
  rw [h2]
  refine ⟨rfl, rfl, rfl,
    n1 + max (300 - (n1 - st.lastRequest)) 0,
    n2 + max (300 - (n2 - (n1 + max (300 - (n1 - st.lastRequest)) 0))) 0,
    rfl, rfl, ?_⟩
  have hkey : (300 : ℤ) - (n2 - (n1 + max (300 - (n1 - st.lastRequest)) 0)) ≤
      max (300 - (n2 - (n1 + max (300 - (n1 - st.lastRequest)) 0))) 0 :=
    le_max_left _ _
  linarith

/-- Witness for C8 at a concrete input: empty cache, first call at time 0,
second call at time 100. -/
theorem getRouteRL_rate_limited_twice_witness :
    (cacheFind (RLState.mk [] 0).cache (((0 : ℚ), (0 : ℚ)), ((1 : ℚ), (1 : ℚ))) = none ∧
      cacheFind (RLState.mk [] 0).cache (((1 : ℚ), (1 : ℚ)), ((0 : ℚ), (0 : ℚ))) = none) ∧
    ((getRouteRL (RLState.mk [] 0) ((0 : ℚ), (0 : ℚ)) ((1 : ℚ), (1 : ℚ)) 0
        RLOutcome.rateLimited).1 = [(0, 0), (1, 1)] ∧
      (getRouteRL (getRouteRL (RLState.mk [] 0) ((0 : ℚ), (0 : ℚ)) ((1 : ℚ), (1 : ℚ)) 0
          RLOutcome.rateLimited).2.1 ((0 : ℚ), (0 : ℚ)) ((1 : ℚ), (1 : ℚ)) 100
          RLOutcome.rateLimited).1 = [(0, 0), (1, 1)] ∧
      (getRouteRL (RLState.mk [] 0) ((0 : ℚ), (0 : ℚ)) ((1 : ℚ), (1 : ℚ)) 0
          RLOutcome.rateLimited).2.1.cache = (RLState.mk [] 0).cache ∧
      ∃ t1 t2 : ℤ,
        (getRouteRL (RLState.mk [] 0) ((0 : ℚ), (0 : ℚ)) ((1 : ℚ), (1 : ℚ)) 0
          RLOutcome.rateLimited).2.2 = some t1 ∧
        (getRouteRL (getRouteRL (RLState.mk [] 0) ((0 : ℚ), (0 : ℚ)) ((1 : ℚ), (1 : ℚ)) 0
            RLOutcome.rateLimited).2.1 ((0 : ℚ), (0 : ℚ)) ((1 : ℚ), (1 : ℚ)) 100
            RLOutcome.rateLimited).2.2 = some t2 ∧
        t1 + 300 ≤ t2) :=
  ⟨⟨rfl, rfl⟩,
    getRouteRL_rate_limited_twice (RLState.mk [] 0) ((0 : ℚ), (0 : ℚ))
      ((1 : ℚ), (1 : ℚ)) 0 100 rfl rfl⟩

/-- The `Person` record of `SimulationLayer.tsx` (second variant, lines
338-347), minus the opaque `mapboxgl.Marker` handle: the marker supports
only `setLngLat`/`remove` and is never inspected, so it is not part of the
simulation state. -/
structure PersonSt where
  id : String
  home : Point
  targetStore : Point
  progress : ℚ
  isReturning : Bool
  route : List Point
  tractId : String
deriving DecidableEq

/-- One animation tick for one person, the body of `animate` inside
`startAnimation` (`SimulationLayer.tsx`, lines 461-481) with
`FIXED_SPEED = 0.0025 = 1/400`: select the directional route (reversed when
returning), skip the person when it has fewer than 2 points, otherwise
compute the marker position from the current progress, advance progress by
the fixed increment, and on reaching 1 reset it to 0 and flip
`isReturning`.  The second component is what gets handed to the
`turf.lineString`/`turf.along` position-interpolation step: `none` when the
person is skipped, otherwise the directional route and the progress used
for interpolation. -/
def tickPerson (p : PersonSt) : PersonSt × Option (List Point × ℚ) :=
  if (if p.isReturning then p.route.reverse else p.route).length < 2 then
    (p, none)
  else if 1 ≤ p.progress + 1 / 400 then
    ({ p with progress := 0, isReturning := !p.isReturning },
      some ((if p.isReturning then p.route.reverse else p.route), p.progress))
  else
    ({ p with progress := p.progress + 1 / 400 },
      some ((if p.isReturning then p.route.reverse else p.route), p.progress))

/-- Claim C6: in every animation tick, a person whose directional route has
fewer than 2 points is skipped before the position-interpolation step —
nothing is passed to line construction and arc-length interpolation, and the
person is left unchanged. -/
theorem tickPerson_short_route_skipped (p : PersonSt)
    (h : (if p.isReturning then p.route.reverse else p.route).length < 2) :
    tickPerson p = (p, none) := by
  unfold tickPerson
  rw [if_pos h]

/-- Witness for C6 at a concrete input: a person with a single-point route. -/
theorem tickPerson_short_route_skipped_witness :
    ((if (PersonSt.mk "w6" (0, 0) (1, 0) 0 false [((5 : ℚ), (5 : ℚ))] "t").isReturning
        then (PersonSt.mk "w6" (0, 0) (1, 0) 0 false [((5 : ℚ), (5 : ℚ))] "t").route.reverse
        else (PersonSt.mk "w6" (0, 0) (1, 0) 0 false [((5 : ℚ), (5 : ℚ))] "t").route).length < 2) ∧
    tickPerson (PersonSt.mk "w6" (0, 0) (1, 0) 0 false [((5 : ℚ), (5 : ℚ))] "t") =
      (PersonSt.mk "w6" (0, 0) (1, 0) 0 false [((5 : ℚ), (5 : ℚ))] "t", none) :=
  ⟨by decide,
    tickPerson_short_route_skipped
      (PersonSt.mk "w6" (0, 0) (1, 0) 0 false [((5 : ℚ), (5 : ℚ))] "t")
      (by decide)⟩

/-- Iterated animation ticks: the person after `n` frames of the
`startAnimation` loop, together with the number of frames at which the
`isReturning` flag flipped (the wraparound transitions of the
Outbound/Returning state machine). -/
def tickN : ℕ → PersonSt → PersonSt × ℕ
  | 0, p => (p, 0)
  | n + 1, p =>
      ((tickN n (tickPerson p).1).1,
        (if (tickPerson p).1.isReturning = p.isReturning then 0 else 1) +
          (tickN n (tickPerson p).1).2)

/-- The directional route has the same length as the stored route. -/
theorem dirRoute_length (p : PersonSt) :
    (if p.isReturning then p.route.reverse else p.route).length =
      p.route.length := by
  cases hb : p.isReturning <;> simp

/-- A tick that does not reach progress 1 only advances `progress` by the
fixed increment. -/
theorem tickPerson_no_wrap (p : PersonSt) (h2 : 2 ≤ p.route.length)
    (h : p.progress + 1 / 400 < 1) :
    (tickPerson p).1 = { p with progress := p.progress + 1 / 400 } := by
  unfold tickPerson
  have hd : ¬ ((if p.isReturning then p.route.reverse else p.route).length < 2) := by
    rw [dirRoute_length]
    omega
  rw [if_neg hd, if_neg (not_le.mpr h)]

/-- A tick that reaches progress 1 resets `progress` to 0 and flips the
`isReturning` flag. -/
theorem tickPerson_wrap (p : PersonSt) (h2 : 2 ≤ p.route.length)
    (h : 1 ≤ p.progress + 1 / 400) :
    (tickPerson p).1 = { p with progress := 0, isReturning := !p.isReturning } := by
  unfold tickPerson
  have hd : ¬ ((if p.isReturning then p.route.reverse else p.route).length < 2) := by
    rw [dirRoute_length]
    omega
  rw [if_neg hd, if_pos h]

/-- A run of `n` ticks none of which reaches progress 1 accumulates
`n / 400` of progress and never flips the flag. -/
theorem tickN_run (n : ℕ) (p : PersonSt) (h2 : 2 ≤ p.route.length)
    (h0 : 0 ≤ p.progress) (hlt : p.progress + (n : ℚ) * (1 / 400) < 1) :
    (tickN n p).1 = { p with progress := p.progress + (n : ℚ) * (1 / 400) } ∧
    (tickN n p).2 = 0 := by
  induction n generalizing p with
  | zero =>
      have hz : p.progress + ((0 : ℕ) : ℚ) * (1 / 400) = p.progress := by
        push_cast
        ring
      rw [hz]
      exact ⟨rfl, rfl⟩
  | succ n ih =>
      have hexp : p.progress + ((n + 1 : ℕ) : ℚ) * (1 / 400) =
          (p.progress + 1 / 400) + (n : ℚ) * (1 / 400) := by
        push_cast
        ring
      have hnn : (0 : ℚ) ≤ (n : ℚ) * (1 / 400) := by positivity
      have hstep : p.progress + 1 / 400 < 1 := by
        rw [hexp] at hlt
        linarith
      have ht := tickPerson_no_wrap p h2 hstep
      obtain ⟨ih1, ih2⟩ := ih { p with progress := p.progress + 1 / 400 }
        (by show 2 ≤ p.route.length; exact h2)
        (by show (0 : ℚ) ≤ p.progress + 1 / 400; linarith)
        (by show (p.progress + 1 / 400) + (n : ℚ) * (1 / 400) < 1
            rw [hexp] at hlt
            exact hlt)
      constructor
      · show (tickN n (tickPerson p).1).1 = _
        rw [ht, ih1]
        have hval : ({ p with progress := p.progress + 1 / 400 } : PersonSt).progress +
            (n : ℚ) * (1 / 400) = p.progress + ((n + 1 : ℕ) : ℚ) * (1 / 400) := by
          show (p.progress + 1 / 400) + (n : ℚ) * (1 / 400) = _
          rw [hexp]
        rw [hval]
      · show (if (tickPerson p).1.isReturning = p.isReturning then 0 else 1) +
            (tickN n (tickPerson p).1).2 = 0
        rw [ht, ih2]
        simp

/-- A single tick that wraps: progress resets to 0 and the flag flips,
counting one flip. -/
theorem tickN_wrap_one (p : PersonSt) (h2 : 2 ≤ p.route.length)
    (h : 1 ≤ p.progress + 1 / 400) :
    (tickN 1 p).1 = { p with progress := 0, isReturning := !p.isReturning } ∧
    (tickN 1 p).2 = 1 := by
  have ht := tickPerson_wrap p h2 h
  constructor
  · show (tickN 0 (tickPerson p).1).1 = _
    rw [ht]
    rfl
  · show (if (tickPerson p).1.isReturning = p.isReturning then 0 else 1) +
        (tickN 0 (tickPerson p).1).2 = 1
    rw [ht]
    cases hb : p.isReturning <;> simp [tickN, hb]

/-- Splitting an iterated tick run: the person component composes. -/
theorem tickN_add_fst (m n : ℕ) (p : PersonSt) :
    (tickN (m + n) p).1 = (tickN n (tickN m p).1).1 := by
  induction m generalizing p with
  | zero => simp [tickN, Nat.zero_add]
  | succ m ih =>
      have hms : m + 1 + n = (m + n) + 1 := by omega
      rw [hms]
      show (tickN (m + n) (tickPerson p).1).1 = _
      rw [ih (tickPerson p).1]
      rfl
  
/-- Splitting an iterated tick run: the flip counts add. -/
theorem tickN_add_snd (m n : ℕ) (p : PersonSt) :
    (tickN (m + n) p).2 = (tickN m p).2 + (tickN n (tickN m p).1).2 := by
  induction m generalizing p with
  | zero => simp [tickN, Nat.zero_add]
  | succ m ih =>
      have hms : m + 1 + n = (m + n) + 1 := by omega
      rw [hms]
      show (if (tickPerson p).1.isReturning = p.isReturning then 0 else 1) +
          (tickN (m + n) (tickPerson p).1).2 = _
      rw [ih (tickPerson p).1]
      show _ = ((if (tickPerson p).1.isReturning = p.isReturning then 0 else 1) +
          (tickN m (tickPerson p).1).2) + (tickN n (tickN m (tickPerson p).1).1).2
      exact (Nat.add_assoc _ _ _).symm

/-- Claim C4 (amended: the starting progress must be an integer multiple of
the per-tick increment, `k/400` with `k < 400`; for other starting values
in `[0,1)` the wrap resets progress to 0 and the original value is never
reproduced — see the counterexample): for every person with a valid route,
after exactly `1/increment = 400` ticks the progress has returned to its
starting value and `isReturning` has flipped exactly once, the single flip
being the tick at which progress crossed 1 and was reset to 0. -/
theorem tickN_wraparound_multiple (p : PersonSt) (k : ℕ)
    (hroute : 2 ≤ p.route.length) (hk : k < 400)
    (hp : p.progress = (k : ℚ) / 400) :
    (tickN 400 p).1.progress = p.progress ∧
    (tickN 400 p).1.isReturning = (!p.isReturning) ∧
    (tickN 400 p).2 = 1 := by
  have hk399 : k ≤ 399 := by omega
  have hcast : ((399 - k : ℕ) : ℚ) = 399 - (k : ℚ) := by
    rw [Nat.cast_sub hk399]
    norm_num
  have h0p : 0 ≤ p.progress := by
    rw [hp]
    positivity
  have hAval : p.progress + ((399 - k : ℕ) : ℚ) * (1 / 400) = 399 / 400 := by
    rw [hp, hcast]
    ring
  have hAlt : p.progress + ((399 - k : ℕ) : ℚ) * (1 / 400) < 1 := by
    rw [hAval]
    norm_num
  obtain ⟨hA1, hA2⟩ := tickN_run (399 - k) p hroute h0p hAlt
  rw [hAval] at hA1
  obtain ⟨hB1, hB2⟩ := tickN_wrap_one ({ p with progress := (399 / 400 : ℚ) })
    (by show 2 ≤ p.route.length; exact hroute)
    (by show (1 : ℚ) ≤ 399 / 400 + 1 / 400; norm_num)
  have hB1f : (tickN 1 ({ p with progress := (399 / 400 : ℚ)} : PersonSt)).1 =
      ({ p with progress := 0, isReturning := !p.isReturning } : PersonSt) := by
    rw [hB1]
  have hkq : (k : ℚ) < 400 := by exact_mod_cast hk
  obtain ⟨hC1, hC2⟩ := tickN_run k
    ({ p with progress := 0, isReturning := !p.isReturning })
    (by show 2 ≤ p.route.length; exact hroute)
    (le_refl 0)
    (by show (0 : ℚ) + (k : ℚ) * (1 / 400) < 1; nlinarith)
  have hC1f : (tickN k ({ p with progress := 0, isReturning := !p.isReturning } : PersonSt)).1 =
      ({ p with progress := (k : ℚ) / 400, isReturning := !p.isReturning } : PersonSt) := by
    rw [hC1]
    have hval : ({ p with progress := 0, isReturning := !p.isReturning } : PersonSt).progress +
        (k : ℚ) * (1 / 400) = (k : ℚ) / 400 := by
      show (0 : ℚ) + (k : ℚ) * (1 / 400) = (k : ℚ) / 400
      ring
    rw [hval]
  have hsplit : (400 : ℕ) = (399 - k) + (1 + k) := by omega
  have e1 : (tickN 400 p).1 =
      (tickN (1 + k) ({ p with progress := (399 / 400 : ℚ) } : PersonSt)).1 := by
    rw [hsplit, tickN_add_fst, hA1]
  have e2 : (tickN (1 + k) ({ p with progress := (399 / 400 : ℚ) } : PersonSt)).1 =
      ({ p with progress := (k : ℚ) / 400, isReturning := !p.isReturning } : PersonSt) := by
    rw [tickN_add_fst 1 k, hB1f, hC1f]
  have f1 : (tickN 400 p).2 =
      (tickN (1 + k) ({ p with progress := (399 / 400 : ℚ) } : PersonSt)).2 := by
    rw [hsplit, tickN_add_snd, hA1, hA2]
    simp
  have f2 : (tickN (1 + k) ({ p with progress := (399 / 400 : ℚ) } : PersonSt)).2 = 1 := by
    rw [tickN_add_snd 1 k, hB2, hB1f, hC2]
  refine ⟨?_, ?_, ?_⟩
  · rw [e1, e2, hp]
  · rw [e1, e2]
  · rw [f1, f2]

/-- Witness for C4 (amended) at a concrete input: starting progress
`2/400`, wrapping once over 400 ticks. -/
theorem tickN_wraparound_multiple_witness :
    (2 ≤ (PersonSt.mk "w4" (0, 0) (1, 0) (2 / 400) true
        [((0 : ℚ), (0 : ℚ)), (1, 0), (2, 0)] "t").route.length ∧
      2 < 400 ∧
      (PersonSt.mk "w4" (0, 0) (1, 0) (2 / 400) true
        [((0 : ℚ), (0 : ℚ)), (1, 0), (2, 0)] "t").progress = ((2 : ℕ) : ℚ) / 400) ∧
    ((tickN 400 (PersonSt.mk "w4" (0, 0) (1, 0) (2 / 400) true
        [((0 : ℚ), (0 : ℚ)), (1, 0), (2, 0)] "t")).1.progress =
      (PersonSt.mk "w4" (0, 0) (1, 0) (2 / 400) true
        [((0 : ℚ), (0 : ℚ)), (1, 0), (2, 0)] "t").progress ∧
    (tickN 400 (PersonSt.mk "w4" (0, 0) (1, 0) (2 / 400) true
        [((0 : ℚ), (0 : ℚ)), (1, 0), (2, 0)] "t")).1.isReturning =
      (!(PersonSt.mk "w4" (0, 0) (1, 0) (2 / 400) true
        [((0 : ℚ), (0 : ℚ)), (1, 0), (2, 0)] "t").isReturning) ∧
    (tickN 400 (PersonSt.mk "w4" (0, 0) (1, 0) (2 / 400) true
        [((0 : ℚ), (0 : ℚ)), (1, 0), (2, 0)] "t")).2 = 1) :=
  ⟨⟨by decide, by decide, by norm_num⟩,
    tickN_wraparound_multiple
      (PersonSt.mk "w4" (0, 0) (1, 0) (2 / 400) true
        [((0 : ℚ), (0 : ℚ)), (1, 0), (2, 0)] "t") 2
      (by decide) (by decide) (by norm_num)⟩

/-- A person whose starting progress `1/1000` lies in `[0,1)` but is not a
multiple of the tick increment `1/400`. -/
def cexPerson : PersonSt :=
  PersonSt.mk "cex" ((0 : ℚ), (0 : ℚ)) ((1 : ℚ), (0 : ℚ)) (1 / 1000) false
    [((0 : ℚ), (0 : ℚ)), ((1 : ℚ), (0 : ℚ))] "t"

/-- Counterexample to claim C4 as stated: the claim quantifies over every
starting progress in `[0,1)`, but for the starting value `1/1000` the wrap
tick resets progress to 0 and after exactly 400 ticks the progress is
`0 ≠ 1/1000` — it has not returned to its starting value. -/
theorem tickN_wraparound_cex :
    (0 ≤ cexPerson.progress ∧ cexPerson.progress < 1 ∧
      2 ≤ cexPerson.route.length) ∧
    (tickN 400 cexPerson).1.progress ≠ cexPerson.progress := by
  have hroute : 2 ≤ cexPerson.route.length := by decide
  have h0 : (0 : ℚ) ≤ cexPerson.progress := by norm_num [cexPerson]
  have hAlt : cexPerson.progress + ((399 : ℕ) : ℚ) * (1 / 400) < 1 := by
    norm_num [cexPerson]
  obtain ⟨hA1, hA2⟩ := tickN_run 399 cexPerson hroute h0 hAlt
  have hAval : cexPerson.progress + ((399 : ℕ) : ℚ) * (1 / 400) =
      (1997 / 2000 : ℚ) := by
    norm_num [cexPerson]
  rw [hAval] at hA1
  obtain ⟨hB1, hB2⟩ := tickN_wrap_one
    ({ cexPerson with progress := (1997 / 2000 : ℚ) })
    (by show 2 ≤ cexPerson.route.length; exact hroute)
    (by show (1 : ℚ) ≤ 1997 / 2000 + 1 / 400; norm_num)
  have e : (tickN 400 cexPerson).1 =
      (tickN 1 ({ cexPerson with progress := (1997 / 2000 : ℚ) } : PersonSt)).1 := by
    rw [show (400 : ℕ) = 399 + 1 from rfl, tickN_add_fst, hA1]
  refine ⟨⟨h0, by norm_num [cexPerson], hroute⟩, ?_⟩
  rw [e, hB1]
  show (0 : ℚ) ≠ cexPerson.progress
  norm_num [cexPerson]

/-- One iteration of the store scan inside `reloadAndReroute`
(`SimulationLayer.tsx`, lines 657-672).  The accumulator carries the current
`nearestStore`, `minDistance`, and whether any assignment has happened: the
source compares `nearestStore !== person.targetStore` by object identity,
and each update stores a freshly built coordinate array, so that comparison
is true exactly when some store was strictly closer and the accumulator was
overwritten. -/
def rerouteStep (d : Point → Point → ℚ) (home : Point)
    (acc : Point × ℚ × Bool) (s : Point) : Point × ℚ × Bool :=
  if d home s < acc.2.1 then (s, d home s, true) else acc

/-- The store scan of `reloadAndReroute` for one person: starts from the
current target store and its distance (`SimulationLayer.tsx`, lines
651-655) and folds `rerouteStep` over the store list. -/
def rerouteScan (d : Point → Point → ℚ) (home target : Point)
    (stores : List Point) : Point × ℚ × Bool :=
  stores.foldl (rerouteStep d home) (target, d home target, false)

/-- The per-person body of `reloadAndReroute` (`SimulationLayer.tsx`, lines
650-683): when the scan found a strictly closer store, set `targetStore` to
it, reset `progress` to 0, clear `isReturning`, and request a fresh route —
`fetched` models what the awaited `getRoute(home, nearestStore)` resolved
to — adopting it only when it has more than one point and otherwise keeping
the old route; when no store was strictly closer the person is returned
untouched. -/
def reroutePerson (d : Point → Point → ℚ) (fetched : Point → Point → List Point)
    (stores : List Point) (p : PersonSt) : PersonSt :=
  if (rerouteScan d p.home p.targetStore stores).2.2 then
    { p with
      targetStore := (rerouteScan d p.home p.targetStore stores).1,
      progress := 0,
      isReturning := false,
      route :=
        if 1 < (fetched p.home (rerouteScan d p.home p.targetStore stores).1).length
        then fetched p.home (rerouteScan d p.home p.targetStore stores).1
        else p.route }
  else p

/-- Running-minimum invariant of the reroute scan, for an arbitrary
accumulator: the final distance is a lower bound for the initial one and for
every scanned store, and either the accumulator survived untouched or the
final store occurs in the list, realizes the final distance, strictly beats
the initial one, and the changed flag is set. -/
theorem rerouteScan_spec (d : Point → Point → ℚ) (home : Point)
    (stores : List Point) :
    ∀ (t0 : Point) (d0 : ℚ) (b0 : Bool),
      ∃ t1 d1 b1,
        stores.foldl (rerouteStep d home) (t0, d0, b0) = (t1, d1, b1) ∧
        d1 ≤ d0 ∧ (∀ s ∈ stores, d1 ≤ d home s) ∧
        ((t1, d1, b1) = (t0, d0, b0) ∨
          (t1 ∈ stores ∧ d1 = d home t1 ∧ d1 < d0 ∧ b1 = true)) := by
  induction stores with
  | nil =>
      intro t0 d0 b0
      exact ⟨t0, d0, b0, rfl, le_refl _, by simp, Or.inl rfl⟩
  | cons s rest ih =>
      intro t0 d0 b0
      by_cases hs : d home s < d0
      · obtain ⟨t1, d1, b1, heq, hle, hall, hdisj⟩ := ih s (d home s) true
        refine ⟨t1, d1, b1, ?_, hle.trans hs.le, ?_, Or.inr ?_⟩
        · simpa [rerouteStep, hs] using heq
        · intro x hx
          rcases List.mem_cons.mp hx with rfl | hx
          · exact hle
          · exact hall x hx
        · rcases hdisj with heq0 | ⟨hmem, hdist, hlt, hb⟩
          · have ht : t1 = s := congrArg (fun q => q.1) heq0
            have hd : d1 = d home s := congrArg (fun q => q.2.1) heq0
            have hb : b1 = true := congrArg (fun q => q.2.2) heq0
            exact ⟨by rw [ht]; exact List.mem_cons_self s rest,
              by rw [ht, hd], by rw [hd]; exact hs, hb⟩
          · exact ⟨List.mem_cons_of_mem s hmem, hdist, hlt.trans hs, hb⟩
      · obtain ⟨t1, d1, b1, heq, hle, hall, hdisj⟩ := ih t0 d0 b0
        have hds : d0 ≤ d home s := not_lt.mp hs
        refine ⟨t1, d1, b1, ?_, hle, ?_, ?_⟩
        · simpa [rerouteStep, hs] using heq
        · intro x hx
          rcases List.mem_cons.mp hx with rfl | hx
          · exact hle.trans hds
          · exact hall x hx
        · rcases hdisj with heq0 | ⟨hmem, hdist, hlt, hb⟩
          · exact Or.inl heq0
          · exact Or.inr ⟨List.mem_cons_of_mem s hmem, hdist, hlt, hb⟩

/-- Claim C5: a reroute with a store strictly closer to the person's home
than the current target resets `progress` to 0, clears `isReturning`, and
moves `targetStore` to a strictly closer store (in fact the closest in the
list), adopting the freshly fetched route only when it has at least 2
points and otherwise keeping the old one, with `home` untouched; a person
for whom no strictly closer store exists is returned entirely unmodified —
in particular no person is ever destroyed by a failed reroute. -/
theorem reroutePerson_closer_spec (d : Point → Point → ℚ)
    (fetched : Point → Point → List Point) (stores : List Point)
    (p : PersonSt) :
    ((∃ s ∈ stores, d p.home s < d p.home p.targetStore) →
      (reroutePerson d fetched stores p).progress = 0 ∧
      (reroutePerson d fetched stores p).isReturning = false ∧
      (reroutePerson d fetched stores p).targetStore ∈ stores ∧
      d p.home (reroutePerson d fetched stores p).targetStore <
        d p.home p.targetStore ∧
      (∀ s ∈ stores,
        d p.home (reroutePerson d fetched stores p).targetStore ≤ d p.home s) ∧
      (reroutePerson d fetched stores p).route =
        (if 1 < (fetched p.home (reroutePerson d fetched stores p).targetStore).length
          then fetched p.home (reroutePerson d fetched stores p).targetStore
          else p.route) ∧
      (reroutePerson d fetched stores p).home = p.home) ∧
    ((∀ s ∈ stores, ¬ d p.home s < d p.home p.targetStore) →
      reroutePerson d fetched stores p = p) := by
  obtain ⟨t1, d1, b1, heq, hle, hall, hdisj⟩ :=
    rerouteScan_spec d p.home stores p.targetStore (d p.home p.targetStore) false
  have hscan : rerouteScan d p.home p.targetStore stores = (t1, d1, b1) := heq
  constructor
  · rintro ⟨s, hs, hclose⟩
    have hright : t1 ∈ stores ∧ d1 = d p.home t1 ∧
        d1 < d p.home p.targetStore ∧ b1 = true := by
      rcases hdisj with heq0 | hright
      · exfalso
        have hd : d1 = d p.home p.targetStore := congrArg (fun q => q.2.1) heq0
        have := hall s hs
        rw [hd] at this
        exact absurd hclose (not_lt.mpr this)
      · exact hright
    obtain ⟨hmem, hdist, hlt, hb⟩ := hright
    have hred : reroutePerson d fetched stores p =
        { p with
          targetStore := t1,
          progress := 0,
          isReturning := false,
          route := if 1 < (fetched p.home t1).length
            then fetched p.home t1 else p.route } := by
      unfold reroutePerson
      rw [hscan, hb]
      simp
    rw [hred]
    refine ⟨rfl, rfl, hmem, ?_, ?_, ?_, rfl⟩
    · show d p.home t1 < d p.home p.targetStore
      rw [← hdist]
      exact hlt
    · intro x hx
      show d p.home t1 ≤ d p.home x
      rw [← hdist]
      exact hall x hx
    · rfl
  · intro hnone
    have hleft : (t1, d1, b1) =
        (p.targetStore, d p.home p.targetStore, false) := by
      rcases hdisj with heq0 | ⟨hmem, hdist, hlt, hb⟩
      · exact heq0
      · exfalso
        rw [hdist] at hlt
        exact hnone t1 hmem hlt
    unfold reroutePerson
    rw [hscan, hleft]
    simp

/-- Witness for C5 at a concrete input: home `(0,0)`, current target
`(3,0)`, a strictly closer store `(1,0)` in the list, and a fetched
replacement route of 2 points. -/
theorem reroutePerson_closer_spec_witness :
    (∃ s ∈ ([((1 : ℚ), (0 : ℚ)), (5, 0)] : List Point),
      sqDist (PersonSt.mk "w5" (0, 0) (3, 0) (1 / 2) true
        [((0 : ℚ), (0 : ℚ)), (3, 0)] "t").home s <
      sqDist (PersonSt.mk "w5" (0, 0) (3, 0) (1 / 2) true
        [((0 : ℚ), (0 : ℚ)), (3, 0)] "t").home
        (PersonSt.mk "w5" (0, 0) (3, 0) (1 / 2) true
          [((0 : ℚ), (0 : ℚ)), (3, 0)] "t").targetStore) ∧
    ((reroutePerson sqDist (fun a b => [a, b]) [((1 : ℚ), (0 : ℚ)), (5, 0)]
        (PersonSt.mk "w5" (0, 0) (3, 0) (1 / 2) true
          [((0 : ℚ), (0 : ℚ)), (3, 0)] "t")).progress = 0 ∧
      (reroutePerson sqDist (fun a b => [a, b]) [((1 : ℚ), (0 : ℚ)), (5, 0)]
        (PersonSt.mk "w5" (0, 0) (3, 0) (1 / 2) true
          [((0 : ℚ), (0 : ℚ)), (3, 0)] "t")).isReturning = false ∧
      (reroutePerson sqDist (fun a b => [a, b]) [((1 : ℚ), (0 : ℚ)), (5, 0)]
        (PersonSt.mk "w5" (0, 0) (3, 0) (1 / 2) true
          [((0 : ℚ), (0 : ℚ)), (3, 0)] "t")).targetStore ∈
        ([((1 : ℚ), (0 : ℚ)), (5, 0)] : List Point) ∧
      sqDist (PersonSt.mk "w5" (0, 0) (3, 0) (1 / 2) true
          [((0 : ℚ), (0 : ℚ)), (3, 0)] "t").home
        (reroutePerson sqDist (fun a b => [a, b]) [((1 : ℚ), (0 : ℚ)), (5, 0)]
          (PersonSt.mk "w5" (0, 0) (3, 0) (1 / 2) true
            [((0 : ℚ), (0 : ℚ)), (3, 0)] "t")).targetStore <
        sqDist (PersonSt.mk "w5" (0, 0) (3, 0) (1 / 2) true
            [((0 : ℚ), (0 : ℚ)), (3, 0)] "t").home
          (PersonSt.mk "w5" (0, 0) (3, 0) (1 / 2) true
            [((0 : ℚ), (0 : ℚ)), (3, 0)] "t").targetStore ∧
      (∀ s ∈ ([((1 : ℚ), (0 : ℚ)), (5, 0)] : List Point),
        sqDist (PersonSt.mk "w5" (0, 0) (3, 0) (1 / 2) true
            [((0 : ℚ), (0 : ℚ)), (3, 0)] "t").home
          (reroutePerson sqDist (fun a b => [a, b]) [((1 : ℚ), (0 : ℚ)), (5, 0)]
            (PersonSt.mk "w5" (0, 0) (3, 0) (1 / 2) true
              [((0 : ℚ), (0 : ℚ)), (3, 0)] "t")).targetStore ≤
          sqDist (PersonSt.mk "w5" (0, 0) (3, 0) (1 / 2) true
              [((0 : ℚ), (0 : ℚ)), (3, 0)] "t").home s) ∧
      (reroutePerson sqDist (fun a b => [a, b]) [((1 : ℚ), (0 : ℚ)), (5, 0)]
        (PersonSt.mk "w5" (0, 0) (3, 0) (1 / 2) true
          [((0 : ℚ), (0 : ℚ)), (3, 0)] "t")).route =
        (if 1 < ((fun a b => [a, b]) (PersonSt.mk "w5" (0, 0) (3, 0) (1 / 2) true
              [((0 : ℚ), (0 : ℚ)), (3, 0)] "t").home
            (reroutePerson sqDist (fun a b => [a, b]) [((1 : ℚ), (0 : ℚ)), (5, 0)]
              (PersonSt.mk "w5" (0, 0) (3, 0) (1 / 2) true
                [((0 : ℚ), (0 : ℚ)), (3, 0)] "t")).targetStore).length
          then (fun a b => [a, b]) (PersonSt.mk "w5" (0, 0) (3, 0) (1 / 2) true
              [((0 : ℚ), (0 : ℚ)), (3, 0)] "t").home
            (reroutePerson sqDist (fun a b => [a, b]) [((1 : ℚ), (0 : ℚ)), (5, 0)]
              (PersonSt.mk "w5" (0, 0) (3, 0) (1 / 2) true
                [((0 : ℚ), (0 : ℚ)), (3, 0)] "t")).targetStore
          else (PersonSt.mk "w5" (0, 0) (3, 0) (1 / 2) true
            [((0 : ℚ), (0 : ℚ)), (3, 0)] "t").route) ∧
      (reroutePerson sqDist (fun a b => [a, b]) [((1 : ℚ), (0 : ℚ)), (5, 0)]
        (PersonSt.mk "w5" (0, 0) (3, 0) (1 / 2) true
          [((0 : ℚ), (0 : ℚ)), (3, 0)] "t")).home =
        (PersonSt.mk "w5" (0, 0) (3, 0) (1 / 2) true
          [((0 : ℚ), (0 : ℚ)), (3, 0)] "t").home) :=
  ⟨⟨((1 : ℚ), (0 : ℚ)), by simp, by norm_num [sqDist]⟩,
    (reroutePerson_closer_spec sqDist (fun a b => [a, b])
      [((1 : ℚ), (0 : ℚ)), (5, 0)]
      (PersonSt.mk "w5" (0, 0) (3, 0) (1 / 2) true
        [((0 : ℚ), (0 : ℚ)), (3, 0)] "t")).1
      ⟨((1 : ℚ), (0 : ℚ)), by simp, by norm_num [sqDist]⟩⟩

/-- Claim C10: across a reroute, the distance from a person's home to its
target store never increases — the scan starts at the current target's
distance and replaces it only with strictly closer stores. -/
theorem reroutePerson_distance_mono (d : Point → Point → ℚ)
    (fetched : Point → Point → List Point) (stores : List Point)
    (p : PersonSt) :
    d p.home (reroutePerson d fetched stores p).targetStore ≤
      d p.home p.targetStore := by
  obtain ⟨t1, d1, b1, heq, hle, hall, hdisj⟩ :=
    rerouteScan_spec d p.home stores p.targetStore (d p.home p.targetStore) false
  have hscan : rerouteScan d p.home p.targetStore stores = (t1, d1, b1) := heq
  unfold reroutePerson
  rw [hscan]
  cases hb1 : b1 with
  | false => simp
  | true =>
      simp only [hb1]
      rcases hdisj with heq0 | ⟨hmem, hdist, hlt, hb⟩
      · have : b1 = false := congrArg (fun q => q.2.2) heq0
        rw [hb1] at this
        exact absurd this (by simp)
      · show d p.home t1 ≤ d p.home p.targetStore
        rw [← hdist]
        exact hle
